import Mathlib

/-!
Verification of the snake game (`src/snake.py`) against its natural-language
specification.  Every definition below is a shallow embedding of a function or
code region of `snake.py`; machine integers are modelled as `Int`/`Nat`,
randomness as an explicit oracle `rng : Nat → Nat` consulted through a
threaded draw counter, and the curses screen as its `(sh, sw)` dimensions.
Cells are `(x, y)` pairs exactly as the source stores them.
-/

namespace Snake

/-- Cells are stored as `(x, y)` pairs of machine integers, as in the source. -/
abbrev Cell := Int × Int

/-- Source constant `MIN_TIMEOUT = 25`. -/
def MIN_TIMEOUT : Int := 25

/-- Source constant `MAX_TIMEOUT = 300`. -/
def MAX_TIMEOUT : Int := 300

/-- Source constant `SCORE_FOOD = 10`. -/
def SCORE_FOOD : Int := 10

/-- Source constant `SCORE_MAZE_FOOD = 15`. -/
def SCORE_MAZE_FOOD : Int := 15

/-- Source constant `SCORE_POWERUP = 25`. -/
def SCORE_POWERUP : Int := 25

/-- Source constant `SCORE_ENEMY_HEAD = 100`. -/
def SCORE_ENEMY_HEAD : Int := 100

/-- Source constant `PENALTY_BALL = -5`. -/
def PENALTY_BALL : Int := -5

/-- Source constant `PENALTY_ENEMY_BODY = -20`. -/
def PENALTY_ENEMY_BODY : Int := -20

/-- Source constant `PENALTY_METEOR = -2`. -/
def PENALTY_METEOR : Int := -2

/-- Source constant `PENALTY_OBSTACLE_FAIL = -15`. -/
def PENALTY_OBSTACLE_FAIL : Int := -15

/-- Python `max(MIN_TIMEOUT, min(MAX_TIMEOUT, t))` (lines 455 and 710). -/
def clampTimeout (t : Int) : Int := max MIN_TIMEOUT (min MAX_TIMEOUT t)

/-! ## Game-loop movement and collision step (`main`, lines 1269-1307) -/

/-- The four curses arrow keys steering the player snake. -/
inductive Dir | left | right | up | down
deriving DecidableEq, Repr

/-- Lines 1272-1280: the prospective next head cell from the current
direction (`KEY_RIGHT` increments x, `KEY_UP` decrements y, ...). -/
def nextHead (head : Cell) (d : Dir) : Cell :=
  match d with
  | Dir.right => (head.1 + 1, head.2)
  | Dir.left  => (head.1 - 1, head.2)
  | Dir.up    => (head.1, head.2 - 1)
  | Dir.down  => (head.1, head.2 + 1)

/-- Line 1286: `wall_hit = next_head_x < 0 or next_head_x >= sw or
next_head_y < 0 or next_head_y >= sh`. -/
def wall_hit (sh sw : Int) (newHead : Cell) : Bool :=
  newHead.1 < 0 || newHead.1 ≥ sw || newHead.2 < 0 || newHead.2 ≥ sh

/-- Line 1290: `self_collision = len(snake) > 1 and new_head in snake`. -/
def self_collision (snake : List Cell) (newHead : Cell) : Bool :=
  decide (snake.length > 1) && decide (newHead ∈ snake)

/-- Result of the collision-and-movement portion of one game-loop tick:
either the game ends (snake untouched) or the new head is pushed. -/
structure MoveStepResult where
  gameOver : Bool
  snake : List Cell
deriving DecidableEq, Repr

/-- Lines 1269-1307 of `main`: compute the prospective head from the current
direction, evaluate the four fatal collisions (screen bounds, own body,
obstacle union, maze-wall union); on any hit the game ends with no movement,
otherwise the new head is inserted at index 0. -/
def collisionMoveStep (sh sw : Int) (snake : List Cell) (d : Dir)
    (activeObstacles activeMazeWalls : List Cell) : MoveStepResult :=
  match snake with
  | [] => ⟨true, []⟩
  | head :: _ =>
    let newHead := nextHead head d
    let wallHit := wall_hit sh sw newHead
    let selfHit := self_collision snake newHead
    let obstacleHit := decide (newHead ∈ activeObstacles)
    let mazeWallHit := decide (newHead ∈ activeMazeWalls)
    if wallHit || selfHit || obstacleHit || mazeWallHit then
      ⟨true, snake⟩
    else
      ⟨false, newHead :: snake⟩

/-- The outer boundary ring of an `sh × sw` board: row 0, row `sh-1`,
column 0 or column `sw-1` (the spec's fatal ring). -/
def onBoundaryRing (sh sw : Int) (c : Cell) : Prop :=
  (c.1 = 0 ∨ c.1 = sw - 1 ∨ c.2 = 0 ∨ c.2 = sh - 1)
  ∧ 0 ≤ c.1 ∧ c.1 < sw ∧ 0 ≤ c.2 ∧ c.2 < sh

instance (sh sw : Int) (c : Cell) : Decidable (onBoundaryRing sh sw c) := by
  unfold onBoundaryRing; infer_instance

/-! ## Score updates (C10)

Every statement in the source that assigns to the global `score`:
lines 499 (`score = max(0, score + PENALTY_BALL)`),
633 (`score += SCORE_ENEMY_HEAD`),
640 (`score = max(0, score + PENALTY_ENEMY_BODY)`),
673 (`score = max(0, score + PENALTY_METEOR)`),
945 (`score = max(0, score + PENALTY_OBSTACLE_FAIL)`),
1360 (`score += food_score_increase`, 10 or 15),
1388 (`score += SCORE_POWERUP`). -/

/-- One score assignment of the source, tagged by its site. -/
inductive ScoreUpdate
  | ballHit          -- line 499
  | enemyHeadKill    -- line 633
  | enemyBodyHit     -- line 640
  | meteorHit        -- line 673
  | obstacleFail     -- line 945
  | regularFood      -- line 1360 with SCORE_FOOD
  | mazeFood         -- line 1360 with SCORE_MAZE_FOOD
  | pickupConsumed   -- line 1388
deriving DecidableEq, Repr

/-- The effect of each score assignment on the score, exactly as written in
the source (penalties are floored at 0 via `max(0, score + p)`; rewards are
plain additions). -/
def applyScoreUpdate (s : Int) (u : ScoreUpdate) : Int :=
  match u with
  | ScoreUpdate.ballHit        => max 0 (s + PENALTY_BALL)
  | ScoreUpdate.enemyHeadKill  => s + SCORE_ENEMY_HEAD
  | ScoreUpdate.enemyBodyHit   => max 0 (s + PENALTY_ENEMY_BODY)
  | ScoreUpdate.meteorHit      => max 0 (s + PENALTY_METEOR)
  | ScoreUpdate.obstacleFail   => max 0 (s + PENALTY_OBSTACLE_FAIL)
  | ScoreUpdate.regularFood    => s + SCORE_FOOD
  | ScoreUpdate.mazeFood       => s + SCORE_MAZE_FOOD
  | ScoreUpdate.pickupConsumed => s + SCORE_POWERUP

/-- The score after a fresh game (`reset_game_state` sets `score = 0`)
followed by any sequence of score assignments. -/
def runScore (updates : List ScoreUpdate) : Int :=
  updates.foldl applyScoreUpdate 0

/-! ## Player-vs-enemy collision (`update_active_effects`, lines 625-646) -/

/-- Python's repeated `snake.pop()` bounded by `if len(snake) > 1`, as in the
loops at lines 641-643 and 948-949: remove up to `n` tail cells but never
the head. -/
def popTailKeepHead (n : Nat) (s : List Cell) : List Cell :=
  match n with
  | 0 => s
  | n + 1 => if s.length > 1 then popTailKeepHead n s.dropLast else s

/-- Outcome of the player-vs-enemy collision check of one enemy instance. -/
structure EnemyCollideResult where
  playerSnake : List Cell
  score : Int
  /-- true when index `i` was appended to `expired_indices` (the enemy
  effect instance is removed in the cleanup pass). -/
  enemyRemoved : Bool
  enemySegments : List Cell
deriving DecidableEq, Repr

/-- Lines 625-646 of `update_active_effects`: after the enemy moved, compare
the player's head with the enemy segment list.  A head-on hit makes the
player absorb the enemy's non-head segments in reversed order, awards
`SCORE_ENEMY_HEAD` and removes the instance; a hit on the enemy body costs
`PENALTY_ENEMY_BODY` (floored at 0) and `max(1, len//3)` player tail cells
(clearing the player instead when only its head remains), and the enemy
instance is left untouched (the source comment notes a split is not
implemented). -/
def playerEnemyCollide (snake : List Cell) (enemySnake : List Cell)
    (score : Int) : EnemyCollideResult :=
  match snake, enemySnake with
  | userHead :: _, enemyHead :: enemyRest =>
    if userHead = enemyHead then
      let segmentsToAdd := enemyRest.reverse
      ⟨snake ++ segmentsToAdd, score + SCORE_ENEMY_HEAD, true, enemySnake⟩
    else if userHead ∈ enemyRest then
      if snake.length > 1 then
        let segmentsToRemove := max 1 (snake.length / 3)
        ⟨popTailKeepHead segmentsToRemove snake,
         max 0 (score + PENALTY_ENEMY_BODY), false, enemySnake⟩
      else
        ⟨[], score, false, enemySnake⟩
    else ⟨snake, score, false, enemySnake⟩
  | _, _ => ⟨snake, score, false, enemySnake⟩

/-! ## Obstacle activation outcome (`activate_powerup`, lines 926-958) -/

/-- Outcome of the type-6 (obstacle) activation after the placement loop. -/
structure ObstacleActivationResult where
  score : Int
  snake : List Cell
  /-- true when `new_effect` received the placed blocks and (activation
  being successful) was appended to `active_effects`. -/
  registered : Bool
deriving DecidableEq, Repr

/-- Line 927: `num_obstacles = max(1, len(snake) // 2)`. -/
def num_obstacles (snake : List Cell) : Nat := max 1 (snake.length / 2)

/-- Line 943: `min_required_obstacles = max(1, num_obstacles // 2) if
num_obstacles > 0 else 0`. -/
def min_required_obstacles (n : Nat) : Nat := if n > 0 then max 1 (n / 2) else 0

/-- Lines 943-958 of `activate_powerup` for type 6, parameterized by the
list of obstacle positions the placement loop managed to place: when fewer
than `max(1, num_obstacles // 2)` were placed the activation fails with a
score penalty floored at 0 and a tail shrink of `max(1, len(snake) // 4)`
cells (skipped entirely when only the head remains); otherwise the effect is
registered whenever at least one obstacle was placed. -/
def obstacleActivationOutcome (snake : List Cell) (score : Int)
    (placedObstacles : List Cell) : ObstacleActivationResult :=
  let num := num_obstacles snake
  let minRequired := min_required_obstacles num
  if num > 0 ∧ placedObstacles.length < minRequired then
    let score1 := max 0 (score + PENALTY_OBSTACLE_FAIL)
    let snake1 :=
      if snake.length > 1 then
        popTailKeepHead (max 1 (snake.length / 4)) snake
      else snake
    ⟨score1, snake1, false⟩
  else if placedObstacles ≠ [] then ⟨score, snake, true⟩
  else ⟨score, snake, false⟩

/-! ## Effect expiry and timeout restoration (`update_active_effects`,
lines 439-455, 691-697, 710) -/

/-- The fields of an effect instance relevant to expiry and timeout
restoration: `{'type': ..., 'end_time': ..., 'data': {'original_timeout':
...}}`.  `originalTimeout = none` models a `data` dict without the
`'original_timeout'` key. -/
structure Effect where
  etype : Nat
  endTime : Int
  originalTimeout : Option Int
deriving DecidableEq, Repr

/-- Line 444: `effect_type in [1, 4, 8]`. -/
def timeoutModifying (t : Nat) : Bool := t = 1 || t = 4 || t = 8

/-- Lines 448-453: instance `o` blocks the restoration of an expiring
sibling when it is still active (`current_time < o['end_time']`) and holds a
recorded `'original_timeout'`. -/
def blocksRestore (now : Int) (t : Nat) (o : Effect) : Bool :=
  o.etype = t && decide (now < o.endTime) && o.originalTimeout.isSome

/-- Lines 439-455 followed by the final clamp of line 710: walk the active
effect list; for each expired (`now >= end_time`) timeout-modifying effect
holding a recorded pre-activation timeout, restore the clamped recorded
value unless another still-active instance of the same type also holds one.
Later list positions overwrite earlier restorations, as in the source's
single `new_timeout` variable. -/
def expiryPass (es : List Effect) (now : Int) (timeout : Int) : Int :=
  let result := es.enum.foldl
    (fun acc (ie : Nat × Effect) =>
      let i := ie.1
      let e := ie.2
      if decide (now ≥ e.endTime) && timeoutModifying e.etype
          && e.originalTimeout.isSome then
        let restore := es.enum.all
          (fun je : Nat × Effect => i = je.1 || !(blocksRestore now e.etype je.2))
        if restore then clampTimeout (e.originalTimeout.getD 0) else acc
      else acc)
    timeout
  clampTimeout result

/-- Lines 691-697: expired indices are deleted highest-first, which leaves
exactly the effects with `now < end_time` in their original order. -/
def removeExpired (es : List Effect) (now : Int) : List Effect :=
  es.filter (fun e => decide (now < e.endTime))

/-! ## Movement, food, pickup and tail pop (`main`, lines 1306-1411) -/

/-- Lines 1332-1344 (and the drawing rule at 1506-1513): the extra
footprint cell of a thick snake segment, offset below after a horizontal
move and to the right after a vertical move. -/
def thickAdjacent (head seg1 : Cell) : Cell :=
  let dx := head.1 - seg1.1
  let dy := head.2 - seg1.2
  if dx ≠ 0 then (head.1, head.2 + 1)
  else if dy ≠ 0 then (head.1 + 1, head.2)
  else head

/-- State after the move/eat/pop portion of a tick (steps 8-11 of the
loop). -/
structure MovePhaseResult where
  snake : List Cell
  foodList : List Cell
  powerups : List (Cell × Nat)
  score : Int
  ateFood : Bool
  atePowerup : Bool
  tailPopped : Bool
deriving Repr

/-- Lines 1306-1411 of `main`, entered only when no fatal collision was
found: push the new head; test the new head (and, for an active thick
snake, its adjacent footprint cell) against the food list selected by
`is_maze_active`; failing that and outside a maze, test the power-up
pickups by exact head match; finally pop the tail unless food or a pickup
was consumed (`grew_from_eating`).  The pickup's activation side effects
(which do not touch the pop decision) are outside this function. -/
def movePhase (snake : List Cell) (newHead : Cell)
    (isMazeActive isThickActive : Bool) (foodList : List Cell)
    (powerups : List (Cell × Nat)) (score : Int) : MovePhaseResult :=
  let snake1 := newHead :: snake
  let foodValue := if isMazeActive then SCORE_MAZE_FOOD else SCORE_FOOD
  let headFoodIdx := foodList.findIdx? (fun f => f = newHead)
  let foodIdx :=
    match headFoodIdx with
    | some i => some i
    | none =>
      if isThickActive && decide (snake1.length > 1) then
        match snake1 with
        | _ :: seg1 :: _ => foodList.findIdx? (fun f => f = thickAdjacent newHead seg1)
        | _ => none
      else none
  match foodIdx with
  | some i =>
    ⟨snake1, foodList.eraseIdx i, powerups, score + foodValue, true, false, false⟩
  | none =>
    if !isMazeActive then
      match powerups.findIdx? (fun p => p.1 = newHead) with
      | some i =>
        ⟨snake1, foodList, powerups.eraseIdx i, score + SCORE_POWERUP,
         false, true, false⟩
      | none => ⟨snake1.dropLast, foodList, powerups, score, false, false, true⟩
    else ⟨snake1.dropLast, foodList, powerups, score, false, false, true⟩

/-! ## Item placement (`place_item`, lines 229-272) -/

/-- The shapes of entries accepted by `place_item`'s `existing_items`
argument (lines 242-253): bare coordinate tuples, and dicts exposing a
single `'pos'`, a `'blocks'` set, a `'maze_walls'` set, or an enemy
`'snake'` segment list. -/
inductive PlacedItem
  | coord (c : Cell)
  | ballPos (c : Cell)
  | blocks (cs : List Cell)
  | mazeWalls (cs : List Cell)
  | enemySegments (cs : List Cell)
deriving DecidableEq, Repr

/-- The cells an item contributes to `occupied_coords`. -/
def itemCells : PlacedItem → List Cell
  | PlacedItem.coord c => [c]
  | PlacedItem.ballPos c => [c]
  | PlacedItem.blocks cs => cs
  | PlacedItem.mazeWalls cs => cs
  | PlacedItem.enemySegments cs => cs

/-- Line 236: `free_cells = (max_y - min_y + 1) * (max_x - min_x + 1) -
len(snake_body) - len(existing_items)` with `min = 1`, `max = dim - 2`. -/
def free_cells (sh sw : Int) (snakeLen itemsLen : Nat) : Int :=
  (sh - 2) * (sw - 2) - snakeLen - itemsLen

/-- Line 237: `realistic_max_attempts = max(10, free_cells // 2 if
free_cells > 20 else 10)`. -/
def realistic_max_attempts (free : Int) : Int :=
  max 10 (if free > 20 then free / 2 else 10)

/-- Line 238: `max_attempts = min(max_attempts, realistic_max_attempts)`. -/
def effectiveBudget (maxAttempts : Nat) (free : Int) : Int :=
  min (maxAttempts : Int) (realistic_max_attempts free)

/-- Lines 255-265: the probe loop.  `random.randint(a, b)` is modelled as
`a + rng k % (b - a + 1)` on the draw oracle, one draw for `ny` and one for
`nx` per probe, exactly in source order. -/
def placeLoop (rng : Nat → Nat) (ctr : Nat) (sh sw : Int)
    (occupied : List Cell) : Nat → Option Cell
  | 0 => none
  | fuel + 1 =>
    if sh - 2 < 1 ∨ sw - 2 < 1 then none
    else
      let ny : Int := 1 + (rng ctr : Int) % (sh - 2)
      let nx : Int := 1 + (rng (ctr + 1) : Int) % (sw - 2)
      if (nx, ny) ∉ occupied then some (nx, ny)
      else placeLoop rng (ctr + 2) sh sw occupied fuel

/-- Lines 229-272: `place_item`.  Returns a random free interior cell
(row `∈ [1, sh-2]`, column `∈ [1, sw-2]`, outside the occupied union) or
`None` after the probe budget is exhausted. -/
def place_item (rng : Nat → Nat) (sh sw : Int) (snakeBody : List Cell)
    (existingItems : List PlacedItem) (maxAttempts : Nat) : Option Cell :=
  if sh - 2 < 1 ∨ sw - 2 < 1 then none
  else
    let occupied := snakeBody ++ existingItems.flatMap itemCells
    let free := free_cells sh sw snakeBody.length existingItems.length
    let budget := effectiveBudget maxAttempts free
    placeLoop rng 0 sh sw occupied budget.toNat

/-! ## Helper lemmas -/

theorem head?_dropLast {α : Type} (s : List α) (h : s.length > 1) :
    s.dropLast.head? = s.head? := by
  match s with
  | a :: b :: t => simp [List.dropLast]
  | [a] => simp at h
  | [] => simp at h

theorem popTailKeepHead_head? (n : Nat) (s : List Cell) :
    (popTailKeepHead n s).head? = s.head? := by
  induction n generalizing s with
  | zero => rfl
  | succ n ih =>
    unfold popTailKeepHead
    by_cases h : s.length > 1
    · rw [if_pos h, ih, head?_dropLast s h]
    · rw [if_neg h]

theorem popTailKeepHead_ne_nil (n : Nat) (s : List Cell) (h : s ≠ []) :
    popTailKeepHead n s ≠ [] := by
  intro hcon
  have h1 := popTailKeepHead_head? n s
  rw [hcon] at h1
  cases s with
  | nil => exact h rfl
  | cons a t => simp at h1

theorem applyScoreUpdate_nonneg (s : Int) (u : ScoreUpdate) (h : 0 ≤ s) :
    0 ≤ applyScoreUpdate s u := by
  cases u <;>
    simp [applyScoreUpdate, PENALTY_BALL, PENALTY_ENEMY_BODY, PENALTY_METEOR,
      PENALTY_OBSTACLE_FAIL, SCORE_FOOD, SCORE_MAZE_FOOD, SCORE_POWERUP,
      SCORE_ENEMY_HEAD] <;> omega

/-! ## Claim theorems -/

/-- C1: the claim states that a prospective next head on the outer boundary
ring (row 0, row `sh-1`, column 0 or column `sw-1`) ends the game with no
movement applied.  The source's own comment (line 1285) agrees, but the
check at line 1286 only fires strictly outside the board: with the head at
`(1,5)` moving left on an 80x24 screen the next head `(0,5)` lies on the
boundary ring, yet the game does not end and the head is pushed. -/
theorem C1_boundary_ring_not_fatal :
    onBoundaryRing 24 80 (0, 5)
    ∧ (collisionMoveStep 24 80 [(1, 5), (2, 5), (3, 5)] Dir.left [] []).gameOver = false
    ∧ (collisionMoveStep 24 80 [(1, 5), (2, 5), (3, 5)] Dir.left [] []).snake
        = [(0, 5), (1, 5), (2, 5), (3, 5)] := by
  refine ⟨by decide, by decide, by decide⟩

/-- C10: starting from the fresh-game score 0 (`reset_game_state`), every
sequence of the source's score assignments (penalties floored at 0 via
`max(0, score + p)`, rewards added as positive constants) keeps the score
non-negative. -/
theorem C10_score_never_negative (updates : List ScoreUpdate) :
    0 ≤ runScore updates := by
  suffices h : ∀ s : Int, 0 ≤ s → 0 ≤ updates.foldl applyScoreUpdate s from
    h 0 le_rfl
  induction updates with
  | nil => intro s hs; simpa using hs
  | cons u rest ih =>
    intro s hs
    exact ih _ (applyScoreUpdate_nonneg s u hs)

/-- C3 counterexample: at the claim's own scenario (enemy segments
`[(2,2),(2,3),(2,4)]`, player head landing on `(2,3)`), the code does not
split the enemy: the instance is kept with its segments intact, the player
score drops by `PENALTY_ENEMY_BODY` (50 to 30) instead of gaining a split
bonus, and the player loses a tail segment. -/
theorem C3_no_split_at_claim_scenario :
    (playerEnemyCollide [(2, 3), (1, 3), (1, 2), (1, 1)] [(2, 2), (2, 3), (2, 4)] 50).enemyRemoved = false
    ∧ (playerEnemyCollide [(2, 3), (1, 3), (1, 2), (1, 1)] [(2, 2), (2, 3), (2, 4)] 50).enemySegments
        = [(2, 2), (2, 3), (2, 4)]
    ∧ (playerEnemyCollide [(2, 3), (1, 3), (1, 2), (1, 1)] [(2, 2), (2, 3), (2, 4)] 50).score = 30
    ∧ (playerEnemyCollide [(2, 3), (1, 3), (1, 2), (1, 1)] [(2, 2), (2, 3), (2, 4)] 50).playerSnake
        = [(2, 3), (1, 3), (1, 2)] := by
  refine ⟨by decide, by decide, by decide, by decide⟩

/-- C3 amended: when the player's head lands on a non-head segment of an
enemy instance, no split occurs: the instance is neither removed nor
divided, the score is decreased by `PENALTY_ENEMY_BODY` (20, floored at 0),
and the player loses `max(1, len // 3)` tail segments with its head intact
(when only the head remains the player snake is cleared instead). -/
theorem C3_enemy_body_hit_penalty (uh eh : Cell) (srest erest : List Cell)
    (score : Int) (hne : uh ≠ eh) (hmem : uh ∈ erest) :
    (playerEnemyCollide (uh :: srest) (eh :: erest) score).enemyRemoved = false
    ∧ (playerEnemyCollide (uh :: srest) (eh :: erest) score).enemySegments = eh :: erest
    ∧ (srest ≠ [] →
        (playerEnemyCollide (uh :: srest) (eh :: erest) score).score
          = max 0 (score + PENALTY_ENEMY_BODY)
        ∧ (playerEnemyCollide (uh :: srest) (eh :: erest) score).playerSnake
          = popTailKeepHead (max 1 ((uh :: srest).length / 3)) (uh :: srest)
        ∧ (playerEnemyCollide (uh :: srest) (eh :: erest) score).playerSnake.head? = some uh)
    ∧ (srest = [] →
        (playerEnemyCollide (uh :: srest) (eh :: erest) score).playerSnake = []) := by
  cases srest with
  | nil =>
    simp [playerEnemyCollide, hne, hmem]
  | cons s2 srest2 =>
    have hlen : (uh :: s2 :: srest2).length > 1 := by simp
    simp only [playerEnemyCollide, if_neg hne, if_pos hmem, if_pos hlen]
    refine ⟨by trivial, by trivial, fun _ => ⟨by trivial, by trivial, ?_⟩,
      fun hcon => by simp at hcon⟩
    rw [popTailKeepHead_head?]
    rfl

/-- C3 witness. -/
theorem C3_enemy_body_hit_penalty_witness :
    (playerEnemyCollide [(5, 5), (4, 5)] [(6, 6), (5, 5), (4, 6)] 7).enemyRemoved = false
    ∧ (playerEnemyCollide [(5, 5), (4, 5)] [(6, 6), (5, 5), (4, 6)] 7).enemySegments
        = [(6, 6), (5, 5), (4, 6)]
    ∧ ([((4 : Int), (5 : Int))] ≠ ([] : List Cell) →
        (playerEnemyCollide [(5, 5), (4, 5)] [(6, 6), (5, 5), (4, 6)] 7).score
          = max 0 (7 + PENALTY_ENEMY_BODY)
        ∧ (playerEnemyCollide [(5, 5), (4, 5)] [(6, 6), (5, 5), (4, 6)] 7).playerSnake
          = popTailKeepHead (max 1 ([((5 : Int), (5 : Int)), (4, 5)].length / 3)) [(5, 5), (4, 5)]
        ∧ (playerEnemyCollide [(5, 5), (4, 5)] [(6, 6), (5, 5), (4, 6)] 7).playerSnake.head?
          = some (5, 5))
    ∧ ([((4 : Int), (5 : Int))] = ([] : List Cell) →
        (playerEnemyCollide [(5, 5), (4, 5)] [(6, 6), (5, 5), (4, 6)] 7).playerSnake = []) :=
  C3_enemy_body_hit_penalty (5, 5) (6, 6) [(4, 5)] [(5, 5), (4, 6)] 7
    (by decide) (by decide)

/-- C4 counterexample: on a head-on player/enemy collision the code does
not turn the enemy body into food items and does not leave the score
unchanged: the player absorbs the enemy's non-head segments (reversed) and
the score jumps by `SCORE_ENEMY_HEAD` (50 to 150). -/
theorem C4_head_on_changes_score :
    (playerEnemyCollide [(2, 2), (1, 2)] [(2, 2), (2, 3), (2, 4)] 50).score = 150
    ∧ (playerEnemyCollide [(2, 2), (1, 2)] [(2, 2), (2, 3), (2, 4)] 50).enemyRemoved = true
    ∧ (playerEnemyCollide [(2, 2), (1, 2)] [(2, 2), (2, 3), (2, 4)] 50).playerSnake
        = [(2, 2), (1, 2), (2, 4), (2, 3)] := by
  refine ⟨by decide, by decide, by decide⟩

/-- C4 amended: when the player's head coincides with the enemy's head, the
enemy's non-head segments are appended, reversed, to the player's body
(absorption, no food items are created), the enemy instance is removed, and
the score increases by `SCORE_ENEMY_HEAD` (100). -/
theorem C4_head_on_absorbs (uh : Cell) (srest erest : List Cell) (score : Int) :
    (playerEnemyCollide (uh :: srest) (uh :: erest) score).playerSnake
      = (uh :: srest) ++ erest.reverse
    ∧ (playerEnemyCollide (uh :: srest) (uh :: erest) score).score
        = score + SCORE_ENEMY_HEAD
    ∧ (playerEnemyCollide (uh :: srest) (uh :: erest) score).enemyRemoved = true := by
  simp [playerEnemyCollide]

/-- C8 counterexample: with a player snake of length 6 the intended
obstacle count is 3; placing exactly 1 obstacle is fewer than half of 3,
yet the code registers the effect with no penalty, because its failure
threshold is `placed < max(1, 3 // 2) = 1`. -/
theorem C8_half_threshold_differs :
    num_obstacles [((5 : Int), 5), (6, 5), (7, 5), (8, 5), (9, 5), (10, 5)] = 3
    ∧ 2 * 1 < 3
    ∧ (obstacleActivationOutcome [(5, 5), (6, 5), (7, 5), (8, 5), (9, 5), (10, 5)] 40
        [(2, 2)]).registered = true
    ∧ (obstacleActivationOutcome [(5, 5), (6, 5), (7, 5), (8, 5), (9, 5), (10, 5)] 40
        [(2, 2)]).score = 40
    ∧ (obstacleActivationOutcome [(5, 5), (6, 5), (7, 5), (8, 5), (9, 5), (10, 5)] 40
        [(2, 2)]).snake = [(5, 5), (6, 5), (7, 5), (8, 5), (9, 5), (10, 5)] := by
  refine ⟨by decide, by decide, by decide, by decide, by decide⟩

/-- C8 amended: when fewer than `max(1, num_obstacles // 2)` obstacles are
placed (the code's failure threshold, where `num_obstacles = max(1,
len // 2)`), the activation fails: the fixed penalty is applied with the
score floored at 0, the snake is shortened by `max(1, len // 4)` (floor,
not ceiling) tail segments — skipped entirely when only the head remains —
the head is never removed, and no obstacle effect is registered. -/
theorem C8_obstacle_failure (snake : List Cell) (score : Int)
    (placed : List Cell)
    (h : placed.length < min_required_obstacles (num_obstacles snake)) :
    (obstacleActivationOutcome snake score placed).registered = false
    ∧ (obstacleActivationOutcome snake score placed).score
        = max 0 (score + PENALTY_OBSTACLE_FAIL)
    ∧ (obstacleActivationOutcome snake score placed).snake
        = (if snake.length > 1 then
            popTailKeepHead (max 1 (snake.length / 4)) snake
          else snake)
    ∧ (snake ≠ [] →
        (obstacleActivationOutcome snake score placed).snake.head? = snake.head?
        ∧ (obstacleActivationOutcome snake score placed).snake ≠ []) := by
  have hnum : num_obstacles snake > 0 := Nat.lt_of_lt_of_le Nat.zero_lt_one (le_max_left _ _)
  simp only [obstacleActivationOutcome, if_pos (And.intro hnum h)]
  refine ⟨by trivial, by trivial, by trivial, fun hne => ?_⟩
  by_cases hlen : snake.length > 1
  · rw [if_pos hlen]
    exact ⟨popTailKeepHead_head? _ _, popTailKeepHead_ne_nil _ _ hne⟩
  · rw [if_neg hlen]
    exact ⟨rfl, hne⟩

/-- C8 witness. -/
theorem C8_obstacle_failure_witness :
    (obstacleActivationOutcome [((1 : Int), 1), (2, 1), (3, 1), (4, 1), (5, 1)] 4 []).registered = false
    ∧ (obstacleActivationOutcome [((1 : Int), 1), (2, 1), (3, 1), (4, 1), (5, 1)] 4 []).score
        = max 0 (4 + PENALTY_OBSTACLE_FAIL)
    ∧ (obstacleActivationOutcome [((1 : Int), 1), (2, 1), (3, 1), (4, 1), (5, 1)] 4 []).snake
        = (if [((1 : Int), 1), (2, 1), (3, 1), (4, 1), (5, 1)].length > 1 then
            popTailKeepHead (max 1 ([((1 : Int), 1), (2, 1), (3, 1), (4, 1), (5, 1)].length / 4))
              [(1, 1), (2, 1), (3, 1), (4, 1), (5, 1)]
          else [(1, 1), (2, 1), (3, 1), (4, 1), (5, 1)])
    ∧ ([((1 : Int), 1), (2, 1), (3, 1), (4, 1), (5, 1)] ≠ ([] : List Cell) →
        (obstacleActivationOutcome [((1 : Int), 1), (2, 1), (3, 1), (4, 1), (5, 1)] 4 []).snake.head?
          = [((1 : Int), 1), (2, 1), (3, 1), (4, 1), (5, 1)].head?
        ∧ (obstacleActivationOutcome [((1 : Int), 1), (2, 1), (3, 1), (4, 1), (5, 1)] 4 []).snake ≠ []) :=
  C8_obstacle_failure [(1, 1), (2, 1), (3, 1), (4, 1), (5, 1)] 4 [] (by decide)

/-- C5: in the move/eat/pop portion of a tick the tail is popped exactly
when neither food nor a power-up pickup was consumed (`grew_from_eating`).
The source has no enemy-split growth event (the split is unimplemented and
no other flag feeds the pop decision), so the claim's third disjunct never
fires and the stated iff holds. -/
theorem C5_tail_pop_iff (snake : List Cell) (newHead : Cell)
    (isMazeActive isThickActive : Bool) (foodList : List Cell)
    (powerups : List (Cell × Nat)) (score : Int) :
    (movePhase snake newHead isMazeActive isThickActive foodList powerups score).tailPopped
      = (!((movePhase snake newHead isMazeActive isThickActive foodList powerups score).ateFood
          || (movePhase snake newHead isMazeActive isThickActive foodList powerups score).atePowerup)) := by
  unfold movePhase
  dsimp only
  split
  · rfl
  · split
    · split <;> rfl
    · rfl

/-- C2 counterexample: two overlapping max-speed (type 4) instances.  The
first activation recorded timeout 100 (the value before the first
activation of the class) and the second recorded 25.  When the
first-activated instance expires first (as always happens for the
fixed-duration types), the eventual restoration on the last expiry uses the
last instance's own recorded value 25, not the claimed class value 100. -/
theorem C2_restores_own_not_class_value :
    expiryPass [⟨4, 5, some 100⟩, ⟨4, 7, some 25⟩] 6 25 = 25
    ∧ removeExpired [⟨4, 5, some 100⟩, ⟨4, 7, some 25⟩] 6 = [⟨4, 7, some 25⟩]
    ∧ expiryPass [⟨4, 7, some 25⟩] 7 25 = 25
    ∧ (25 : Int) ≠ 100 := by
  refine ⟨by decide, by decide, by decide, by decide⟩

/-- C2 amended: for two overlapping instances of the same timeout-modifying
type, the pass on which the earlier instance expires while the later is
still active leaves the timeout unchanged (the still-active sibling holding
a recorded value blocks restoration), and the pass on which the last
instance expires restores that last instance's own recorded pre-activation
value, clamped to `[MIN_TIMEOUT, MAX_TIMEOUT]` — which equals the value
recorded before the first activation of the class only when the
first-activated instance is the last to expire. -/
theorem C2_overlapping_timeout_restore (t : Nat) (ht : timeoutModifying t = true)
    (endA endB a b now1 now2 timeout timeout2 : Int)
    (hA : endA ≤ now1) (hB : now1 < endB) (hB2 : endB ≤ now2)
    (h1 : MIN_TIMEOUT ≤ timeout) (h2 : timeout ≤ MAX_TIMEOUT) :
    expiryPass [⟨t, endA, some a⟩, ⟨t, endB, some b⟩] now1 timeout = timeout
    ∧ removeExpired [⟨t, endA, some a⟩, ⟨t, endB, some b⟩] now1 = [⟨t, endB, some b⟩]
    ∧ expiryPass [⟨t, endB, some b⟩] now2 timeout2 = clampTimeout b := by
  have hnA : ¬ now1 < endA := not_lt.mpr hA
  have hnB : ¬ endB ≤ now1 := not_le.mpr hB
  simp [MIN_TIMEOUT, MAX_TIMEOUT] at h1 h2
  refine ⟨?_, ?_, ?_⟩
  · simp [expiryPass, List.enum, blocksRestore, ht, hA, hB, hnB, clampTimeout,
      MIN_TIMEOUT, MAX_TIMEOUT]
    omega
  · simp [removeExpired, hB, hnA]
  · simp [expiryPass, List.enum, blocksRestore, ht, hB2, clampTimeout,
      MIN_TIMEOUT, MAX_TIMEOUT]

/-- C2 witness. -/
theorem C2_overlapping_timeout_restore_witness :
    expiryPass [⟨1, 5, some 40⟩, ⟨1, 7, some 80⟩] 6 100 = 100
    ∧ removeExpired [⟨1, 5, some 40⟩, ⟨1, 7, some 80⟩] 6 = [⟨1, 7, some 80⟩]
    ∧ expiryPass [⟨1, 7, some 80⟩] 9 100 = clampTimeout 80 :=
  C2_overlapping_timeout_restore 1 (by decide) 5 7 40 80 6 9 100 100
    (by decide) (by decide) (by decide) (by decide) (by decide)

/-- C7 soundness of the probe loop: a returned cell is strictly inside the
interior region and outside the occupied union. -/
theorem placeLoop_sound (rng : Nat → Nat) (sh sw : Int) (occupied : List Cell)
    (p : Cell) :
    ∀ fuel ctr, placeLoop rng ctr sh sw occupied fuel = some p →
      1 ≤ p.1 ∧ p.1 ≤ sw - 2 ∧ 1 ≤ p.2 ∧ p.2 ≤ sh - 2 ∧ p ∉ occupied := by
  intro fuel
  induction fuel with
  | zero => intro ctr h; simp [placeLoop] at h
  | succ fuel ih =>
    intro ctr h
    unfold placeLoop at h
    by_cases hg : sh - 2 < 1 ∨ sw - 2 < 1
    · rw [if_pos hg] at h; simp at h
    · rw [if_neg hg] at h
      push_neg at hg
      obtain ⟨hgh, hgw⟩ := hg
      by_cases hmem :
          ((1 + (rng (ctr + 1) : Int) % (sw - 2), 1 + (rng ctr : Int) % (sh - 2)) : Cell)
            ∉ occupied
      · rw [if_pos hmem] at h
        have hp := Option.some_injective _ h
        subst hp
        have hy1 : 0 ≤ (rng ctr : Int) % (sh - 2) :=
          Int.emod_nonneg _ (by omega)
        have hy2 : (rng ctr : Int) % (sh - 2) < sh - 2 :=
          Int.emod_lt_of_pos _ (by omega)
        have hx1 : 0 ≤ (rng (ctr + 1) : Int) % (sw - 2) :=
          Int.emod_nonneg _ (by omega)
        have hx2 : (rng (ctr + 1) : Int) % (sw - 2) < sw - 2 :=
          Int.emod_lt_of_pos _ (by omega)
        exact ⟨by omega, by omega, by omega, by omega, hmem⟩
      · rw [if_neg hmem] at h
        exact ih (ctr + 2) h

/-- C7: for every board of at least 5x5, every snake cell list, every item
collection and every caller-supplied attempt cap of at least 10 (every call
site passes 50 or 100), the probe budget `min(max_attempts, max(10, ...))`
is at least 10, and `place_item` either fails with `none` or returns a cell
with row in `[1, sh-2]` and column in `[1, sw-2]` that is in neither the
snake cells nor any item's cells. -/
theorem C7_place_item_sound (rng : Nat → Nat) (sh sw : Int)
    (snakeBody : List Cell) (existingItems : List PlacedItem)
    (maxAttempts : Nat) (h1 : 5 ≤ sh) (h2 : 5 ≤ sw) (h3 : 10 ≤ maxAttempts) :
    10 ≤ effectiveBudget maxAttempts
          (free_cells sh sw snakeBody.length existingItems.length)
    ∧ (place_item rng sh sw snakeBody existingItems maxAttempts = none
       ∨ ∃ p : Cell,
           place_item rng sh sw snakeBody existingItems maxAttempts = some p
           ∧ 1 ≤ p.1 ∧ p.1 ≤ sw - 2 ∧ 1 ≤ p.2 ∧ p.2 ≤ sh - 2
           ∧ p ∉ snakeBody
           ∧ ∀ it ∈ existingItems, p ∉ itemCells it) := by
  constructor
  · unfold effectiveBudget realistic_max_attempts
    split <;> omega
  · cases hres : place_item rng sh sw snakeBody existingItems maxAttempts with
    | none => exact Or.inl rfl
    | some p =>
      refine Or.inr ⟨p, rfl, ?_⟩
      unfold place_item at hres
      rw [if_neg (by omega)] at hres
      have hs := placeLoop_sound rng sh sw
        (snakeBody ++ existingItems.flatMap itemCells) p _ _ hres
      obtain ⟨ha, hb, hc, hd, hmem⟩ := hs
      rw [List.mem_append] at hmem
      push_neg at hmem
      refine ⟨ha, hb, hc, hd, hmem.1, ?_⟩
      intro it hit hcontra
      exact hmem.2 (List.mem_flatMap.mpr ⟨it, hit, hcontra⟩)

/-- C7 witness. -/
theorem C7_place_item_sound_witness :
    10 ≤ effectiveBudget 50 (free_cells 5 5 ([((2 : Int), (2 : Int))].length) ([] : List PlacedItem).length)
    ∧ (place_item (fun _ => 0) 5 5 [(2, 2)] [] 50 = none
       ∨ ∃ p : Cell,
           place_item (fun _ => 0) 5 5 [(2, 2)] [] 50 = some p
           ∧ 1 ≤ p.1 ∧ p.1 ≤ 5 - 2 ∧ 1 ≤ p.2 ∧ p.2 ≤ 5 - 2
           ∧ p ∉ [((2 : Int), (2 : Int))]
           ∧ ∀ it ∈ ([] : List PlacedItem), p ∉ itemCells it) :=
  C7_place_item_sound (fun _ => 0) 5 5 [(2, 2)] [] 50
    (by decide) (by decide) (by decide)

/-! ## High-score persistence (`load_high_scores` / `save_high_scores`,
lines 114-141)

The scoreboard file is modelled as a `List Char`; an entry is a
`(score, name)` pair with the name as a `List Char`.  Python's stable
`sorted(..., key=score, reverse=True)` is modelled by a stable descending
insertion sort. -/

/-- Source constant `MAX_HIGH_SCORES = 5`. -/
def MAX_HIGH_SCORES : Nat := 5

/-- Source constant `MAX_NAME_LENGTH = 10`. -/
def MAX_NAME_LENGTH : Nat := 10

/-- A `(score, name)` scoreboard entry. -/
abbrev ScoreEntry := Nat × List Char

/-- The characters Python's `str.isspace()` accepts and `str.strip()`
strips: U+0009-U+000D, U+001C-U+001F, the space, U+0085, U+00A0, U+1680,
U+2000-U+200A, U+2028, U+2029, U+202F, U+205F and U+3000. -/
def pySpace (c : Char) : Bool :=
  ('\x09' ≤ c && c ≤ '\x0d') || c = ' ' || ('\x1c' ≤ c && c ≤ '\x1f')
  || c = '\x85' || c = '\xa0' || c = '\u1680'
  || ('\u2000' ≤ c && c ≤ '\u200a')
  || c = '\u2028' || c = '\u2029' || c = '\u202f' || c = '\u205f' || c = '\u3000'

/-- Stable insertion into a descending-by-score list: an element passes a
later one only when its score is strictly greater, so equal scores keep
their original order, as Python's stable `sorted` does. -/
def insertDesc (x : ScoreEntry) : List ScoreEntry → List ScoreEntry
  | [] => [x]
  | y :: ys => if x.1 ≥ y.1 then x :: y :: ys else y :: insertDesc x ys

/-- Stable descending-by-score sort, modelling
`sorted(scores_list, key=lambda item: item[0], reverse=True)`. -/
def sortDesc : List ScoreEntry → List ScoreEntry
  | [] => []
  | x :: xs => insertDesc x (sortDesc xs)

/-- Line 138: `safe_name = str(name).replace(',', '')[:MAX_NAME_LENGTH]`. -/
def sanitizeName (n : List Char) : List Char :=
  (n.filter (fun c => c ≠ ',')).take MAX_NAME_LENGTH

/-- Decimal digit character, `str` of a single digit. -/
def digitChar (d : Nat) : Char := Char.ofNat (48 + d)

/-- Fuel-driven digit production for `str(n)`; `fuel > n` is always enough
since the value shrinks by a factor of 10 each step. -/
def natDigitsCore (fuel n : Nat) : List Char :=
  match fuel with
  | 0 => []
  | fuel + 1 =>
    if n < 10 then [digitChar n]
    else natDigitsCore fuel (n / 10) ++ [digitChar (n % 10)]

/-- Python's `str(n)` for a non-negative integer. -/
def natDigits (n : Nat) : List Char := natDigitsCore (n + 1) n

/-- Python's `int(s)` on a digit string. -/
def parseNat (l : List Char) : Nat :=
  l.foldl (fun a c => a * 10 + (c.toNat - 48)) 0

/-- Line 139: one written line `f"{hs_score},{safe_name}"` (newline added
by the writer). -/
def saveLine (e : ScoreEntry) : List Char :=
  natDigits e.1 ++ ',' :: sanitizeName e.2

/-- Lines 132-141: `save_high_scores` — sort descending by score, keep the
top `MAX_HIGH_SCORES`, write one sanitized line per entry, each terminated
by a newline. -/
def save_high_scores (l : List ScoreEntry) : List Char :=
  (((sortDesc l).take MAX_HIGH_SCORES).map (fun e => saveLine e ++ ['\n'])).flatten

/-- Fuel-driven worker for the universal-newline line splitter; any fuel
above the list length is enough since every step consumes at least one
character. -/
def splitOnNLCore (fuel : Nat) (l : List Char) : List (List Char) :=
  match fuel with
  | 0 => [l]
  | fuel + 1 =>
    match l with
    | [] => [[]]
    | c :: rest =>
      if c = '\n' then [] :: splitOnNLCore fuel rest
      else if c = '\r' then
        if rest.head? = some '\n' then [] :: splitOnNLCore fuel rest.tail
        else [] :: splitOnNLCore fuel rest
      else
        match splitOnNLCore fuel rest with
        | line :: more => (c :: line) :: more
        | [] => [[c]]

/-- Split a file into lines the way Python's text-mode line iteration does
under universal newlines: a line breaks at `'\n'`, at `'\r'`, and at the
pair `'\r\n'` (one break).  A file ending in a line break yields one
trailing empty segment here, which the loader's empty-line skip
discards. -/
def splitOnNL (l : List Char) : List (List Char) :=
  splitOnNLCore (l.length + 1) l

/-- Python's `line.strip()` over the modelled whitespace set. -/
def pyStrip (l : List Char) : List Char :=
  ((l.dropWhile pySpace).reverse.dropWhile pySpace).reverse

/-- Python's `line.split(',', 1)`: `none` when the line has no comma
(a malformed single-part line), otherwise the text before the first comma
and everything after it. -/
def splitFirstComma : List Char → Option (List Char × List Char)
  | [] => none
  | c :: rest =>
    if c = ',' then some ([], rest)
    else
      match splitFirstComma rest with
      | some p => some (c :: p.1, p.2)
      | none => none

/-- Lines 120-127: parse one line — strip it, skip it when empty, split on
the first comma, require two parts with a non-empty all-digit score, and
truncate the name to `MAX_NAME_LENGTH`. -/
def parseScoreLine (l : List Char) : Option ScoreEntry :=
  let s := pyStrip l
  if s = [] then none
  else
    match splitFirstComma s with
    | none => none
    | some p =>
      if p.1 ≠ [] ∧ p.1.all Char.isDigit then
        some (parseNat p.1, p.2.take MAX_NAME_LENGTH)
      else none

/-- Lines 114-128: `load_high_scores` — parse every line, skipping
malformed ones, and return the entries sorted descending by score,
truncated to `MAX_HIGH_SCORES`. -/
def load_high_scores (file : List Char) : List ScoreEntry :=
  (sortDesc ((splitOnNL file).filterMap parseScoreLine)).take MAX_HIGH_SCORES

/-! ## Lemmas and theorems for the scoreboard round-trip (C9) -/

theorem natDigitsCore_fuel_irrel (n : Nat) :
    ∀ f1 f2, n < f1 → n < f2 → natDigitsCore f1 n = natDigitsCore f2 n := by
  induction n using Nat.strong_induction_on with
  | _ n ih =>
    intro f1 f2 h1 h2
    match f1, f2 with
    | g1 + 1, g2 + 1 =>
      unfold natDigitsCore
      by_cases hn : n < 10
      · rw [if_pos hn, if_pos hn]
      · rw [if_neg hn, if_neg hn]
        have hd : n / 10 < n := Nat.div_lt_self (by omega) (by omega)
        rw [ih (n / 10) hd g1 g2 (by omega) (by omega)]

/-- The recursion `natDigits` satisfies, used in place of unfolding. -/
theorem natDigits_eq (n : Nat) :
    natDigits n = if n < 10 then [digitChar n]
      else natDigits (n / 10) ++ [digitChar (n % 10)] := by
  show natDigitsCore (n + 1) n = _
  unfold natDigitsCore
  by_cases hn : n < 10
  · rw [if_pos hn, if_pos hn]
  · rw [if_neg hn, if_neg hn]
    have hd : n / 10 < n := Nat.div_lt_self (by omega) (by omega)
    rw [natDigitsCore_fuel_irrel (n / 10) n (n / 10 + 1) hd (by omega)]
    rfl

theorem dropWhile_eq_self_of_forall {p : Char → Bool} (a : List Char)
    (h : ∀ c ∈ a, p c = false) : a.dropWhile p = a := by
  cases a with
  | nil => rfl
  | cons x xs => simp [List.dropWhile, h x (by simp)]

theorem dropWhile_append_self {p : Char → Bool} (a b : List Char)
    (ha : a ≠ []) (hd : a.dropWhile p = a) : (a ++ b).dropWhile p = a ++ b := by
  cases a with
  | nil => exact absurd rfl ha
  | cons x xs =>
    have hx : ¬ p x = true := by
      have := List.dropWhile_eq_self_iff.mp hd (by simp)
      simpa using this
    simp [List.cons_append, List.dropWhile_cons, hx]

theorem digitChar_props (d : Nat) (h : d < 10) :
    (digitChar d).isDigit = true ∧ pySpace (digitChar d) = false
    ∧ digitChar d ≠ ',' ∧ digitChar d ≠ '\n' ∧ digitChar d ≠ '\r' := by
  interval_cases d <;> exact ⟨by decide, by decide, by decide, by decide, by decide⟩

theorem digitChar_toNat (d : Nat) (h : d < 10) : (digitChar d).toNat = 48 + d := by
  interval_cases d <;> decide

theorem natDigits_ne_nil (n : Nat) : natDigits n ≠ [] := by
  rw [natDigits_eq]
  split <;> simp

theorem natDigits_mem_props (n : Nat) :
    ∀ c ∈ natDigits n,
      c.isDigit = true ∧ pySpace c = false ∧ c ≠ ',' ∧ c ≠ '\n' ∧ c ≠ '\r' := by
  induction n using Nat.strong_induction_on with
  | _ n ih =>
    intro c hc
    rw [natDigits_eq] at hc
    split at hc
    · next h =>
      simp at hc
      subst hc
      exact digitChar_props n h
    · next h =>
      rw [List.mem_append] at hc
      rcases hc with hc | hc
      · exact ih (n / 10) (Nat.div_lt_self (by omega) (by omega)) c hc
      · simp at hc
        subst hc
        exact digitChar_props (n % 10) (Nat.mod_lt _ (by omega))

theorem parseNat_append_one (a : List Char) (c : Char) :
    parseNat (a ++ [c]) = parseNat a * 10 + (c.toNat - 48) := by
  unfold parseNat
  rw [List.foldl_append]
  rfl

theorem parseNat_natDigits (n : Nat) : parseNat (natDigits n) = n := by
  induction n using Nat.strong_induction_on with
  | _ n ih =>
    rw [natDigits_eq]
    split
    · next h =>
      show parseNat [digitChar n] = n
      unfold parseNat
      simp [digitChar_toNat n h]
    · next h =>
      rw [parseNat_append_one, ih (n / 10) (Nat.div_lt_self (by omega) (by omega)),
        digitChar_toNat (n % 10) (Nat.mod_lt _ (by omega))]
      omega

theorem splitFirstComma_append (a b : List Char) (ha : ',' ∉ a) :
    splitFirstComma (a ++ ',' :: b) = some (a, b) := by
  induction a with
  | nil => simp [splitFirstComma]
  | cons x xs ih =>
    have hx : x ≠ ',' := by intro hcon; exact ha (by simp [hcon])
    have hxs : ',' ∉ xs := fun hcon => ha (by simp [hcon])
    simp only [List.cons_append, splitFirstComma, if_neg hx, List.append_eq, ih hxs]

theorem splitOnNLCore_fuel_irrel :
    ∀ (n : Nat) (l : List Char), l.length ≤ n → ∀ f1 f2, l.length < f1 → l.length < f2 →
      splitOnNLCore f1 l = splitOnNLCore f2 l := by
  intro n
  induction n with
  | zero =>
    intro l hl f1 f2 h1 h2
    match f1, f2 with
    | g1 + 1, g2 + 1 =>
      cases l with
      | nil => rfl
      | cons c rest => simp at hl
  | succ n ih =>
    intro l hl f1 f2 h1 f2h
    match f1, f2 with
    | g1 + 1, g2 + 1 =>
      cases l with
      | nil => rfl
      | cons c rest =>
        have hrest : rest.length ≤ n := by simp at hl; omega
        have hr1 : rest.length < g1 := by simp at h1; omega
        have hr2 : rest.length < g2 := by simp at f2h; omega
        show (if c = '\n' then [] :: splitOnNLCore g1 rest
          else if c = '\r' then
            if rest.head? = some '\n' then [] :: splitOnNLCore g1 rest.tail
            else [] :: splitOnNLCore g1 rest
          else
            match splitOnNLCore g1 rest with
            | line :: more => (c :: line) :: more
            | [] => [[c]]) = _
        have htail : splitOnNLCore g1 rest.tail = splitOnNLCore g2 rest.tail := by
          have hlt : rest.tail.length ≤ rest.length := by
            cases rest <;> simp
          exact ih rest.tail (by omega) g1 g2 (by omega) (by omega)
        rw [ih rest hrest g1 g2 hr1 hr2, htail]
        rfl

/-- The one-step recursion `splitOnNL` satisfies. -/
theorem splitOnNL_cons (c : Char) (rest : List Char) :
    splitOnNL (c :: rest) =
      if c = '\n' then [] :: splitOnNL rest
      else if c = '\r' then
        if rest.head? = some '\n' then [] :: splitOnNL rest.tail
        else [] :: splitOnNL rest
      else
        match splitOnNL rest with
        | line :: more => (c :: line) :: more
        | [] => [[c]] := by
  show (if c = '\n' then [] :: splitOnNLCore (rest.length + 1) rest
    else if c = '\r' then
      if rest.head? = some '\n' then [] :: splitOnNLCore (rest.length + 1) rest.tail
      else [] :: splitOnNLCore (rest.length + 1) rest
    else
      match splitOnNLCore (rest.length + 1) rest with
      | line :: more => (c :: line) :: more
      | [] => [[c]]) = _
  have htail : splitOnNLCore (rest.length + 1) rest.tail = splitOnNL rest.tail := by
    have hlt : rest.tail.length ≤ rest.length := by cases rest <;> simp
    exact splitOnNLCore_fuel_irrel rest.tail.length rest.tail le_rfl _ _
      (by omega) (by omega)
  rw [htail]
  rfl

theorem splitOnNL_line_append (line rest : List Char) (h : '\n' ∉ line)
    (h2 : '\r' ∉ line) :
    splitOnNL (line ++ '\n' :: rest) = line :: splitOnNL rest := by
  induction line with
  | nil =>
    rw [List.nil_append, splitOnNL_cons, if_pos rfl]
  | cons c cs ih =>
    have hc : c ≠ '\n' := by intro hcon; exact h (by simp [hcon])
    have hcr : c ≠ '\r' := by intro hcon; exact h2 (by simp [hcon])
    have hcs : '\n' ∉ cs := fun hcon => h (by simp [hcon])
    have hcrs : '\r' ∉ cs := fun hcon => h2 (by simp [hcon])
    rw [List.cons_append, splitOnNL_cons, if_neg hc, if_neg hcr, ih hcs hcrs]

theorem splitOnNL_flatten (lines : List (List Char))
    (h : ∀ ln ∈ lines, '\n' ∉ ln ∧ '\r' ∉ ln) :
    splitOnNL ((lines.map (fun ln => ln ++ ['\n'])).flatten) = lines ++ [[]] := by
  induction lines with
  | nil => rfl
  | cons x xs ih =>
    have hx := h x (by simp)
    have hxs : ∀ ln ∈ xs, '\n' ∉ ln ∧ '\r' ∉ ln := fun ln hln => h ln (by simp [hln])
    simp only [List.map_cons, List.flatten_cons, List.append_assoc, List.singleton_append]
    rw [splitOnNL_line_append _ _ hx.1 hx.2, ih hxs]
    simp

theorem pyStrip_saveLine (e : ScoreEntry)
    (ht : (sanitizeName e.2).reverse.dropWhile pySpace = (sanitizeName e.2).reverse) :
    pyStrip (saveLine e) = saveLine e := by
  unfold pyStrip saveLine
  have hD : List.dropWhile pySpace (natDigits e.1) = natDigits e.1 :=
    dropWhile_eq_self_of_forall _ (fun c hc => (natDigits_mem_props e.1 c hc).2.1)
  rw [dropWhile_append_self _ _ (natDigits_ne_nil e.1) hD]
  have hrev : (natDigits e.1 ++ ',' :: sanitizeName e.2).reverse
      = (sanitizeName e.2).reverse ++ ',' :: (natDigits e.1).reverse := by
    simp
  rw [hrev]
  cases hS : (sanitizeName e.2).reverse with
  | nil =>
    simp only [List.nil_append, List.dropWhile_cons]
    rw [if_neg (by decide)]
    simp only [List.reverse_cons, List.reverse_reverse]
    have : sanitizeName e.2 = [] := by
      have := congrArg List.reverse hS
      simpa using this
    rw [this]
  | cons y ys =>
    rw [← hS, dropWhile_append_self _ _ (by rw [hS]; simp) ht]
    simp

theorem parseScoreLine_saveLine (e : ScoreEntry)
    (ht : (sanitizeName e.2).reverse.dropWhile pySpace = (sanitizeName e.2).reverse) :
    parseScoreLine (saveLine e) = some (e.1, sanitizeName e.2) := by
  unfold parseScoreLine
  rw [pyStrip_saveLine e ht]
  have hne : saveLine e ≠ [] := by
    unfold saveLine
    intro hcon
    exact natDigits_ne_nil e.1 (by simpa using List.append_eq_nil.mp hcon |>.1)
  rw [if_neg (by simpa using hne)]
  unfold saveLine
  rw [splitFirstComma_append _ _ (fun hc => ((natDigits_mem_props e.1 ',' hc).2.2.1) rfl)]
  dsimp only
  rw [if_pos ⟨natDigits_ne_nil e.1, List.all_eq_true.mpr
    (fun c hc => (natDigits_mem_props e.1 c hc).1)⟩]
  rw [parseNat_natDigits]
  unfold sanitizeName
  rw [List.take_take]
  rfl

theorem mem_insertDesc (x y : ScoreEntry) (l : List ScoreEntry) :
    x ∈ insertDesc y l ↔ x = y ∨ x ∈ l := by
  induction l with
  | nil => simp [insertDesc]
  | cons z zs ih =>
    unfold insertDesc
    split
    · simp
    · simp [ih]
      tauto

theorem mem_sortDesc (x : ScoreEntry) (l : List ScoreEntry) :
    x ∈ sortDesc l ↔ x ∈ l := by
  induction l with
  | nil => simp [sortDesc]
  | cons z zs ih => simp [sortDesc, mem_insertDesc, ih]

theorem length_insertDesc (x : ScoreEntry) (l : List ScoreEntry) :
    (insertDesc x l).length = l.length + 1 := by
  induction l with
  | nil => rfl
  | cons z zs ih =>
    unfold insertDesc
    split
    · simp
    · simp [ih]

theorem length_sortDesc (l : List ScoreEntry) :
    (sortDesc l).length = l.length := by
  induction l with
  | nil => rfl
  | cons z zs ih => simp [sortDesc, length_insertDesc, ih]

/-- Descending-by-score order: every earlier entry has a score at least
every later one's. -/
def SortedByScoreDesc (l : List ScoreEntry) : Prop :=
  List.Pairwise (fun a b => b.1 ≤ a.1) l

theorem pairwise_insertDesc (x : ScoreEntry) (l : List ScoreEntry)
    (h : SortedByScoreDesc l) : SortedByScoreDesc (insertDesc x l) := by
  induction l with
  | nil => simp [insertDesc, SortedByScoreDesc]
  | cons y ys ih =>
    unfold insertDesc
    rcases List.pairwise_cons.mp h with ⟨hy, hys⟩
    split
    · next hge =>
      refine List.pairwise_cons.mpr ⟨?_, h⟩
      intro z hz
      rcases List.mem_cons.mp hz with hz1 | hz2
      · subst hz1; exact hge
      · exact le_trans (hy z hz2) hge
    · next hlt =>
      push_neg at hlt
      refine List.pairwise_cons.mpr ⟨?_, ih hys⟩
      intro z hz
      rcases (mem_insertDesc z x ys).mp hz with hz | hz
      · subst hz; exact le_of_lt hlt
      · exact hy z hz

theorem sortDesc_sorted (l : List ScoreEntry) : SortedByScoreDesc (sortDesc l) := by
  induction l with
  | nil => simp [sortDesc, SortedByScoreDesc]
  | cons x xs ih => exact pairwise_insertDesc x (sortDesc xs) ih

theorem sortDesc_eq_self (l : List ScoreEntry) (h : SortedByScoreDesc l) :
    sortDesc l = l := by
  induction l with
  | nil => rfl
  | cons x xs ih =>
    rcases List.pairwise_cons.mp h with ⟨hx, hxs⟩
    rw [sortDesc, ih hxs]
    cases xs with
    | nil => rfl
    | cons y ys =>
      unfold insertDesc
      rw [if_pos (hx y (by simp))]

theorem sortDesc_idem (l : List ScoreEntry) :
    sortDesc (sortDesc l) = sortDesc l :=
  sortDesc_eq_self _ (sortDesc_sorted l)

/-- The per-entry sanitization the claim describes: commas stripped and the
name truncated to `MAX_NAME_LENGTH`. -/
def sanitizeEntry (e : ScoreEntry) : ScoreEntry := (e.1, sanitizeName e.2)

theorem insertDesc_map_sanitize (x : ScoreEntry) (l : List ScoreEntry) :
    insertDesc (sanitizeEntry x) (l.map sanitizeEntry)
      = (insertDesc x l).map sanitizeEntry := by
  induction l with
  | nil => rfl
  | cons y ys ih =>
    simp only [List.map_cons]
    unfold insertDesc
    dsimp only [sanitizeEntry]
    by_cases hge : x.1 ≥ y.1
    · rw [if_pos hge, if_pos hge]
      rfl
    · rw [if_neg hge, if_neg hge]
      dsimp only [sanitizeEntry] at ih
      rw [ih]
      rfl

theorem sortDesc_map_sanitize (l : List ScoreEntry) :
    sortDesc (l.map sanitizeEntry) = (sortDesc l).map sanitizeEntry := by
  induction l with
  | nil => rfl
  | cons x xs ih =>
    simp only [List.map_cons, sortDesc, ih]
    exact insertDesc_map_sanitize x (sortDesc xs)

theorem filterMap_parse_saveLines (L : List ScoreEntry)
    (h : ∀ e ∈ L, (sanitizeName e.2).reverse.dropWhile pySpace = (sanitizeName e.2).reverse) :
    (L.map saveLine).filterMap parseScoreLine = L.map sanitizeEntry := by
  induction L with
  | nil => rfl
  | cons e es ih =>
    simp only [List.map_cons, List.filterMap_cons]
    rw [parseScoreLine_saveLine e (h e (by simp))]
    rw [ih (fun x hx => h x (by simp [hx]))]
    rfl

theorem saveLine_no_break (e : ScoreEntry) (hn : '\n' ∉ sanitizeName e.2)
    (hr : '\r' ∉ sanitizeName e.2) :
    '\n' ∉ saveLine e ∧ '\r' ∉ saveLine e := by
  unfold saveLine
  constructor
  · intro hc
    rcases List.mem_append.mp hc with hc | hc
    · exact (natDigits_mem_props e.1 '\n' hc).2.2.2.1 rfl
    · rcases List.mem_cons.mp hc with hc | hc
      · exact absurd hc.symm (by decide)
      · exact hn hc
  · intro hc
    rcases List.mem_append.mp hc with hc | hc
    · exact (natDigits_mem_props e.1 '\r' hc).2.2.2.2 rfl
    · rcases List.mem_cons.mp hc with hc | hc
      · exact absurd hc.symm (by decide)
      · exact hr hc

/-- C9 amended: saving a scoreboard of at most `MAX_HIGH_SCORES` entries
and reloading it yields exactly the entries sorted descending by score with
names comma-stripped and truncated to `MAX_NAME_LENGTH` — provided each
sanitized name contains no line-break character (`'\n'` or `'\r'`, which
universal-newline reading would split) and no trailing `str.isspace()`
whitespace (which `strip()` would eat); otherwise the line format itself is
broken, see the counterexample. -/
theorem C9_roundtrip (l : List ScoreEntry) (hlen : l.length ≤ MAX_HIGH_SCORES)
    (hname : ∀ e ∈ l, '\n' ∉ sanitizeName e.2 ∧ '\r' ∉ sanitizeName e.2
      ∧ (sanitizeName e.2).reverse.dropWhile pySpace = (sanitizeName e.2).reverse) :
    load_high_scores (save_high_scores l) = sortDesc (l.map sanitizeEntry) := by
  have hlen2 : (sortDesc l).length ≤ MAX_HIGH_SCORES := by
    rw [length_sortDesc]; exact hlen
  have htake : (sortDesc l).take MAX_HIGH_SCORES = sortDesc l :=
    List.take_of_length_le hlen2
  unfold save_high_scores load_high_scores
  rw [htake]
  have hmapmap : (sortDesc l).map (fun e => saveLine e ++ ['\n'])
      = ((sortDesc l).map saveLine).map (fun ln => ln ++ ['\n']) := by
    rw [List.map_map]; rfl
  rw [hmapmap]
  rw [splitOnNL_flatten _ (by
    intro ln hln
    rcases List.mem_map.mp hln with ⟨e, he, hrfl⟩
    subst hrfl
    exact saveLine_no_break e ((hname e ((mem_sortDesc e l).mp he)).1)
      ((hname e ((mem_sortDesc e l).mp he)).2.1))]
  rw [List.filterMap_append]
  rw [filterMap_parse_saveLines _
    (fun e he => (hname e ((mem_sortDesc e l).mp he)).2.2)]
  have hnilparse : ([([] : List Char)].filterMap parseScoreLine) = [] := by decide
  rw [hnilparse, List.append_nil]
  rw [sortDesc_map_sanitize, sortDesc_idem]
  rw [sortDesc_map_sanitize]
  apply List.take_of_length_le
  simp [length_sortDesc]
  omega

/-- C9 witness. -/
theorem C9_roundtrip_witness :
    load_high_scores (save_high_scores [(3, "bob".data), (10, "amy".data)])
      = sortDesc ([(3, "bob".data), ((10 : Nat), "amy".data)].map sanitizeEntry) :=
  C9_roundtrip [(3, "bob".data), (10, "amy".data)] (by decide)
    (by
      intro e he
      fin_cases he <;> exact ⟨by decide, by decide, by decide⟩)

/-- C9 counterexample: a name containing a line-break character breaks the
round-trip.  Saving the single entry `(7, "ab\ncd")` writes the file
`"7,ab\ncd\n"`, which reloads as the single entry `(7, "ab")` — not the
original pair with commas stripped and the name truncated, which would be
`(7, "ab\ncd")`; a carriage return in the name fails the same way, since
text-mode reading breaks lines at `'\r'` too. -/
theorem C9_newline_name_breaks_roundtrip :
    load_high_scores (save_high_scores [(7, "ab\ncd".data)]) = [(7, "ab".data)]
    ∧ load_high_scores (save_high_scores [(7, "ab\rcd".data)]) = [(7, "ab".data)]
    ∧ sortDesc ([((7 : Nat), "ab\ncd".data)].map sanitizeEntry) = [(7, "ab\ncd".data)]
    ∧ sortDesc ([((7 : Nat), "ab\rcd".data)].map sanitizeEntry) = [(7, "ab\rcd".data)]
    ∧ ("ab".data : List Char) ≠ "ab\ncd".data
    ∧ ("ab".data : List Char) ≠ "ab\rcd".data := by
  refine ⟨by decide, by decide, by decide, by decide, by decide, by decide⟩

/-! ## Maze generation (`generate_wide_maze`, lines 276-414)

Randomness is the oracle `rng : Nat → Nat` with a threaded draw counter:
`random.randint(a, b)` is `a + rng k % (b - a + 1)` and `random.choice(l)`
picks index `rng k % len(l)`.  Coarse DFS stack entries are `(ch, cw)`
(row, column) and carved coarse path cells are stored `(cw, ch)` (x, y),
exactly as the source keeps them. -/

/-- Python `random.choice` on a non-empty list. -/
def pickFrom {α : Type} (rng : Nat → Nat) (ctr : Nat) (l : List α) (dflt : α) : α :=
  l.getD (rng ctr % l.length) dflt

/-- Lines 309-325: the randomized depth-first carver on the coarse grid.
Each iteration inspects the stack top `(ch, cw)`, collects unvisited
neighbors two coarse cells away that lie strictly inside the grid, and
either carves a random neighbor together with the wall cell between
(pushing the neighbor) or backtracks.  The fuel argument dominates the
loop's true termination measure, so exhausting it never happens with the
fuel used by `generate_wide_maze`. -/
def mazeDfs (rng : Nat → Nat) (gridH gridW : Int) :
    Nat → Nat → List (Int × Int) → List Cell → List Cell × Nat
  | 0, ctr, _, carved => (carved, ctr)
  | fuel + 1, ctr, stack, carved =>
    match stack with
    | [] => (carved, ctr)
    | (ch, cw) :: rest =>
      let neighbors :=
        ([((0 : Int), (2 : Int)), (0, -2), (2, 0), (-2, 0)]).filterMap
          (fun dd =>
            let nh := ch + dd.1
            let nw := cw + dd.2
            if 0 < nh ∧ nh < gridH ∧ 0 < nw ∧ nw < gridW ∧ (nw, nh) ∉ carved then
              some ((nh, nw), (ch + dd.1 / 2, cw + dd.2 / 2))
            else none)
      match neighbors with
      | [] => mazeDfs rng gridH gridW fuel ctr rest carved
      | n0 :: ns =>
        let chosen := pickFrom rng ctr (n0 :: ns) n0
        mazeDfs rng gridH gridW fuel (ctr + 1)
          ((chosen.1.1, chosen.1.2) :: (ch, cw) :: rest)
          ((chosen.1.2, chosen.1.1) :: (chosen.2.2, chosen.2.1) :: carved)

/-- Python `range(-corridor_offset, corridor_offset + 1)`. -/
def offsetRange (off : Int) : List Int :=
  (List.range (2 * off + 1).toNat).map (fun i => (i : Int) - off)

/-- Lines 337-346: expand one carved coarse cell `(cw, ch)` into its
`corridor_w × corridor_w` block of full-resolution path cells around the
block center `(cw * w + w//2, ch * w + w//2)`, keeping only cells inside
the target rectangle. -/
def expandCell (corridorW targetH targetW : Int) (c : Cell) : List Cell :=
  (offsetRange (corridorW / 2)).flatMap
    (fun dy =>
      (offsetRange (corridorW / 2)).filterMap
        (fun dx =>
          if 0 ≤ c.1 * corridorW + corridorW / 2 + dx
              ∧ c.1 * corridorW + corridorW / 2 + dx < targetW
              ∧ 0 ≤ c.2 * corridorW + corridorW / 2 + dy
              ∧ c.2 * corridorW + corridorW / 2 + dy < targetH then
            some (c.1 * corridorW + corridorW / 2 + dx,
                  c.2 * corridorW + corridorW / 2 + dy)
          else none))

/-- Line 331: every cell of the target rectangle (the initial all-wall
set). -/
def allCells (targetH targetW : Int) : List Cell :=
  (List.range targetH.toNat).flatMap
    (fun y => (List.range targetW.toNat).map (fun x => ((x : Int), (y : Int))))

/-- Lexicographic comparison of `(x, y)` tuples, Python's tuple order. -/
def lexLe (a b : Cell) : Bool :=
  a.1 < b.1 || (a.1 = b.1 && a.2 ≤ b.2)

/-- Insertion step of the lexicographic sort. -/
def insertLex (x : Cell) : List Cell → List Cell
  | [] => [x]
  | y :: ys => if lexLe x y then x :: y :: ys else y :: insertLex x ys

/-- Line 350's `sorted(...)` on coordinate tuples. -/
def sortLex : List Cell → List Cell
  | [] => []
  | x :: xs => insertLex x (sortLex xs)

/-- Lines 360-368: scan the exit candidates keeping the first cell at
maximal squared distance from the entrance (`max_dist` starts at -1, strict
improvement required). -/
def bestExitFold (entrance : Cell) (cands : List Cell) : Option Cell :=
  (cands.foldl
    (fun (acc : Int × Option Cell) cell =>
      let d := (cell.1 - entrance.1) ^ 2 + (cell.2 - entrance.2) ^ 2
      if d > acc.1 then (d, some cell) else acc)
    (-1, none)).2

/-- Lines 387-407, `carve_opening`: the wall cells discarded for one
opening, at index 1 or `dim - 2` of the target rectangle depending on which
coarse edge the boundary cell touches (checked in source order). -/
def openingCells (corridorW targetH targetW gridH gridW : Int)
    (coarse center : Cell) : List Cell :=
  let off := corridorW / 2
  if coarse.2 = 1 then
    (offsetRange off).filterMap
      (fun dx => if 0 ≤ center.1 + dx ∧ center.1 + dx < targetW then
        some (center.1 + dx, 1) else none)
  else if coarse.2 = gridH - 2 then
    (offsetRange off).filterMap
      (fun dx => if 0 ≤ center.1 + dx ∧ center.1 + dx < targetW then
        some (center.1 + dx, targetH - 2) else none)
  else if coarse.1 = 1 then
    (offsetRange off).filterMap
      (fun dy => if 0 ≤ center.2 + dy ∧ center.2 + dy < targetH then
        some (1, center.2 + dy) else none)
  else if coarse.1 = gridW - 2 then
    (offsetRange off).filterMap
      (fun dy => if 0 ≤ center.2 + dy ∧ center.2 + dy < targetH then
        some (targetW - 2, center.2 + dy) else none)
  else []

/-- Set-difference on wall lists: the `discard` calls of `carve_opening`. -/
def discardCells (walls cells : List Cell) : List Cell :=
  walls.filter (fun c => decide (c ∉ cells))

/-- The result quadruple of `generate_wide_maze`. -/
structure MazeResult where
  walls : List Cell
  path : List Cell
  entrance : Option Cell
  exitCoord : Option Cell
deriving DecidableEq, Repr

/-- Line 287: `corridor_w = max(1, (corridor_w // 2) * 2 + 1)`. -/
def normalizeCorridor (corridorW0 : Int) : Int :=
  max 1 ((corridorW0 / 2) * 2 + 1)

/-- Lines 290-291: the coarse grid dimension for one axis. -/
def coarseDim (target corridor : Int) : Int :=
  max 3 ((target / corridor / 2) * 2 + 1)

/-- Line 295: the feasibility check of `generate_wide_maze`, in terms of
the normalized corridor width and derived coarse grid. -/
def mazeGenFails (targetH targetW corridorW0 : Int) : Prop :=
  targetH < 3 ∨ targetW < 3
  ∨ coarseDim targetH (normalizeCorridor corridorW0) * normalizeCorridor corridorW0 > targetH
  ∨ coarseDim targetW (normalizeCorridor corridorW0) * normalizeCorridor corridorW0 > targetW

instance (th tw c : Int) : Decidable (mazeGenFails th tw c) := by
  unfold mazeGenFails; infer_instance

/-- Lines 303-307 with the DFS of lines 309-325: pick the random odd start
cell, seed the stack and the carved set, and run the carver.  The fuel
`2 * grid_h * grid_w + 1` dominates the loop's decreasing measure
`2 * (number of uncarved cells) + stack length`. -/
def mazeDfsRun (rng : Nat → Nat) (gridH gridW : Int) : List Cell × Nat :=
  let start_ch := ((rng 0 : Int) % (gridH / 2)) * 2 + 1
  let start_cw := ((rng 1 : Int) % (gridW / 2)) * 2 + 1
  mazeDfs rng gridH gridW (gridH * gridW * 2 + 1).toNat 2
    [(start_ch, start_cw)] [(start_cw, start_ch)]

/-- Line 368: `exit_coarse = best_exit if best_exit else
(random.choice(exit_candidates) if exit_candidates else entrance_coarse)`. -/
def chooseExit (rng : Nat → Nat) (ctr : Nat) (entranceCoarse : Cell)
    (exitCandidates : List Cell) : Cell :=
  match bestExitFold entranceCoarse exitCandidates with
  | some c => c
  | none =>
    match exitCandidates with
    | [] => entranceCoarse
    | c :: cs => pickFrom rng (ctr + 1) (c :: cs) c

/-- Lines 329-414, after the carving finished: expand the coarse path,
derive the wall set, select entrance/exit among the coarse boundary path
cells (or null when fewer than two exist), and carve the two openings. -/
def mazeAssemble (rng : Nat → Nat) (target_h target_w corridor_w grid_h grid_w : Int)
    (carved : List Cell) (ctr : Nat) : MazeResult :=
  let expandedPath := carved.flatMap (expandCell corridor_w target_h target_w)
  let walls0 := (allCells target_h target_w).filter
    (fun c => decide (c ∉ expandedPath))
  let boundary := sortLex (carved.filter
    (fun c => decide (c.1 = 1 ∨ c.1 = grid_w - 2 ∨ c.2 = 1 ∨ c.2 = grid_h - 2)))
  if boundary.length < 2 then ⟨walls0, expandedPath, none, none⟩
  else
    let entranceCoarse := pickFrom rng ctr boundary (0, 0)
    let exitCandidates := boundary.filter (fun c => decide (c ≠ entranceCoarse))
    let exitCoarse := chooseExit rng ctr entranceCoarse exitCandidates
    let off := corridor_w / 2
    let entranceCenter :=
      (entranceCoarse.1 * corridor_w + off, entranceCoarse.2 * corridor_w + off)
    let exitCenter :=
      (exitCoarse.1 * corridor_w + off, exitCoarse.2 * corridor_w + off)
    let walls1 := discardCells walls0
      (openingCells corridor_w target_h target_w grid_h grid_w
        entranceCoarse entranceCenter)
    let walls2 := discardCells walls1
      (openingCells corridor_w target_h target_w grid_h grid_w
        exitCoarse exitCenter)
    ⟨walls2, expandedPath, some entranceCenter, some exitCenter⟩

/-- The successful side of `generate_wide_maze`: run the carver on the
derived coarse grid, fall back to the empty result when nothing was carved
(line 327), otherwise assemble the maze. -/
def mazeCarveStage (rng : Nat → Nat) (target_h target_w corridor_w : Int) :
    MazeResult :=
  let grid_h := coarseDim target_h corridor_w
  let grid_w := coarseDim target_w corridor_w
  let r := mazeDfsRun rng grid_h grid_w
  if r.1 = [] then ⟨[], [], none, none⟩
  else mazeAssemble rng target_h target_w corridor_w grid_h grid_w r.1 r.2

/-- Lines 276-414: `generate_wide_maze`.  Normalize the corridor width,
derive the coarse grid, bail out with empty sets and null coordinates when
the grid does not fit (line 295-297), otherwise carve and assemble. -/
def generate_wide_maze (rng : Nat → Nat) (target_h target_w corridor_w0 : Int) :
    MazeResult :=
  if mazeGenFails target_h target_w corridor_w0 then ⟨[], [], none, none⟩
  else mazeCarveStage rng target_h target_w (normalizeCorridor corridor_w0)

/-! ## Lemmas and theorems for maze generation (C6) -/

theorem pickFrom_mem {α : Type} (rng : Nat → Nat) (ctr : Nat) (l : List α)
    (d : α) (h : l ≠ []) : pickFrom rng ctr l d ∈ l := by
  unfold pickFrom
  have hpos : 0 < l.length := List.length_pos.mpr h
  have hlt : rng ctr % l.length < l.length := Nat.mod_lt _ hpos
  rw [List.getD_eq_getElem l d hlt]
  exact List.getElem_mem hlt

/-- Coarse path cells, stored `(x, y) = (cw, ch)`, stay strictly inside the
coarse grid ring. -/
def coarseCellOk (gridH gridW : Int) (c : Cell) : Prop :=
  1 ≤ c.1 ∧ c.1 ≤ gridW - 2 ∧ 1 ≤ c.2 ∧ c.2 ≤ gridH - 2

/-- DFS stack entries `(ch, cw)` have odd coordinates strictly inside the
grid. -/
def stackCellOk (gridH gridW : Int) (s : Int × Int) : Prop :=
  s.1 % 2 = 1 ∧ s.2 % 2 = 1 ∧ 1 ≤ s.1 ∧ s.1 ≤ gridH - 2 ∧ 1 ≤ s.2 ∧ s.2 ≤ gridW - 2

theorem mazeDfs_invariant (rng : Nat → Nat) (gridH gridW : Int)
    (hHodd : gridH % 2 = 1) (hWodd : gridW % 2 = 1) :
    ∀ fuel ctr stack carved,
      (∀ s ∈ stack, stackCellOk gridH gridW s) →
      (∀ c ∈ carved, coarseCellOk gridH gridW c) →
      (∀ c ∈ carved, c ∈ (mazeDfs rng gridH gridW fuel ctr stack carved).1)
      ∧ (∀ c ∈ (mazeDfs rng gridH gridW fuel ctr stack carved).1,
          coarseCellOk gridH gridW c) := by
  intro fuel
  induction fuel with
  | zero =>
    intro ctr stack carved _ hcarved
    exact ⟨fun c hc => hc, hcarved⟩
  | succ fuel ih =>
    intro ctr stack carved hstack hcarved
    match stack with
    | [] => exact ⟨fun c hc => hc, hcarved⟩
    | (ch, cw) :: rest =>
      have hhead := hstack (ch, cw) (by simp)
      obtain ⟨hch2, hcw2, hch1, hchU, hcw1, hcwU⟩ := hhead
      rw [mazeDfs]
      split
      · next hn =>
        exact ih ctr rest carved (fun s hs => hstack s (by simp [hs])) hcarved
      · next n0 ns hn =>
        set ck := pickFrom rng ctr (n0 :: ns) n0 with hck
        have hchosen : ck ∈ n0 :: ns := pickFrom_mem rng ctr (n0 :: ns) n0 (by simp)
        rw [← hn] at hchosen
        rcases List.mem_filterMap.mp hchosen with ⟨dd, hdd, hsome⟩
        dsimp only at hsome
        by_cases hcond : 0 < ch + dd.1 ∧ ch + dd.1 < gridH ∧ 0 < cw + dd.2
            ∧ cw + dd.2 < gridW ∧ (cw + dd.2, ch + dd.1) ∉ carved
        swap
        · rw [if_neg hcond] at hsome; exact absurd hsome (by simp)
        rw [if_pos hcond] at hsome
        obtain ⟨hnh0, hnhU, hnw0, hnwU, _⟩ := hcond
        have heq := Option.some.inj hsome
        have h1 : ck.1.1 = ch + dd.1 := by rw [← heq]
        have h2 : ck.1.2 = cw + dd.2 := by rw [← heq]
        have h3 : ck.2.1 = ch + dd.1 / 2 := by rw [← heq]
        have h4 : ck.2.2 = cw + dd.2 / 2 := by rw [← heq]
        have hddcases : dd = ((0 : Int), (2 : Int)) ∨ dd = (0, -2) ∨ dd = (2, 0) ∨ dd = (-2, 0) := by
          simpa using hdd
        have hstackNew : ∀ s ∈
            (ck.1.1, ck.1.2) :: (ch, cw) :: rest,
            stackCellOk gridH gridW s := by
          intro s hs
          rcases List.mem_cons.mp hs with hs | hs
          · subst hs
            unfold stackCellOk
            rw [h1, h2]
            rcases hddcases with h | h | h | h <;> subst h <;> omega
          · exact hstack s (by simp [hs])
        have hcarvedNew : ∀ c ∈
            (ck.1.2, ck.1.1) :: (ck.2.2, ck.2.1) :: carved,
            coarseCellOk gridH gridW c := by
          intro c hc
          rcases List.mem_cons.mp hc with hc | hc
          · subst hc
            unfold coarseCellOk
            rw [h1, h2]
            rcases hddcases with h | h | h | h <;> subst h <;> omega
          · rcases List.mem_cons.mp hc with hc | hc
            · subst hc
              unfold coarseCellOk
              rw [h3, h4]
              rcases hddcases with h | h | h | h <;> subst h <;> omega
            · exact hcarved c hc
        have hres := ih (ctr + 1) _ _ hstackNew hcarvedNew
        exact ⟨fun c hc => hres.1 c (by simp [hc]), hres.2⟩

theorem mazeDfsRun_carved (rng : Nat → Nat) (gridH gridW : Int)
    (hHodd : gridH % 2 = 1) (hWodd : gridW % 2 = 1)
    (hH3 : 3 ≤ gridH) (hW3 : 3 ≤ gridW) :
    (mazeDfsRun rng gridH gridW).1 ≠ []
    ∧ (∀ c ∈ (mazeDfsRun rng gridH gridW).1, coarseCellOk gridH gridW c) := by
  have hH2 : (1 : Int) ≤ gridH / 2 := by omega
  have hW2 : (1 : Int) ≤ gridW / 2 := by omega
  have hr0a : 0 ≤ (rng 0 : Int) % (gridH / 2) := Int.emod_nonneg _ (by omega)
  have hr0b : (rng 0 : Int) % (gridH / 2) < gridH / 2 := Int.emod_lt_of_pos _ (by omega)
  have hr1a : 0 ≤ (rng 1 : Int) % (gridW / 2) := Int.emod_nonneg _ (by omega)
  have hr1b : (rng 1 : Int) % (gridW / 2) < gridW / 2 := Int.emod_lt_of_pos _ (by omega)
  have hstart : stackCellOk gridH gridW
      (((rng 0 : Int) % (gridH / 2)) * 2 + 1, ((rng 1 : Int) % (gridW / 2)) * 2 + 1) := by
    unfold stackCellOk
    refine ⟨by omega, by omega, by omega, by omega, by omega, by omega⟩
  have hcarved0 : ∀ c ∈ ([(((rng 1 : Int) % (gridW / 2)) * 2 + 1,
      ((rng 0 : Int) % (gridH / 2)) * 2 + 1)] : List Cell),
      coarseCellOk gridH gridW c := by
    intro c hc
    simp at hc
    subst hc
    unfold coarseCellOk
    refine ⟨by omega, by omega, by omega, by omega⟩
  have hinv := mazeDfs_invariant rng gridH gridW hHodd hWodd
    (gridH * gridW * 2 + 1).toNat 2
    [(((rng 0 : Int) % (gridH / 2)) * 2 + 1, ((rng 1 : Int) % (gridW / 2)) * 2 + 1)]
    [(((rng 1 : Int) % (gridW / 2)) * 2 + 1, ((rng 0 : Int) % (gridH / 2)) * 2 + 1)]
    (by intro s hs; simp at hs; subst hs; exact hstart) hcarved0
  constructor
  · intro hcon
    have hm := hinv.1 (((rng 1 : Int) % (gridW / 2)) * 2 + 1,
      ((rng 0 : Int) % (gridH / 2)) * 2 + 1) (by simp)
    simp only [mazeDfsRun] at hcon
    rw [hcon] at hm
    simp at hm
  · intro c hc
    simp only [mazeDfsRun] at hc
    exact hinv.2 c hc

theorem mem_insertLex (x y : Cell) (l : List Cell) :
    x ∈ insertLex y l ↔ x = y ∨ x ∈ l := by
  induction l with
  | nil => simp [insertLex]
  | cons z zs ih =>
    unfold insertLex
    split
    · simp
    · simp [ih]
      tauto

theorem mem_sortLex (x : Cell) (l : List Cell) : x ∈ sortLex l ↔ x ∈ l := by
  induction l with
  | nil => simp [sortLex]
  | cons z zs ih => simp [sortLex, mem_insertLex, ih]

theorem bestExitFold_aux (entrance : Cell) (c : Cell) :
    ∀ (cands : List Cell) (acc : Int × Option Cell),
      (cands.foldl
        (fun (acc : Int × Option Cell) cell =>
          let d := (cell.1 - entrance.1) ^ 2 + (cell.2 - entrance.2) ^ 2
          if d > acc.1 then (d, some cell) else acc) acc).2 = some c →
      acc.2 = some c ∨ c ∈ cands := by
  intro cands
  induction cands with
  | nil => intro acc h; exact Or.inl h
  | cons z zs ih =>
    intro acc h
    rw [List.foldl_cons] at h
    rcases ih _ h with hacc | hmem
    · dsimp only at hacc
      split at hacc
      · simp at hacc
        simp [hacc]
      · exact Or.inl hacc
    · exact Or.inr (by simp [hmem])

theorem bestExitFold_mem (entrance : Cell) (cands : List Cell) (c : Cell)
    (h : bestExitFold entrance cands = some c) : c ∈ cands := by
  unfold bestExitFold at h
  rcases bestExitFold_aux entrance c cands (-1, none) h with hacc | hmem
  · simp at hacc
  · exact hmem

theorem coarseCenter_bounds (gridH gridW th tw : Int) (c : Cell)
    (hok : coarseCellOk gridH gridW c) (hth : gridH * 3 ≤ th) (htw : gridW * 3 ≤ tw) :
    1 ≤ c.1 * 3 + 3 / 2 ∧ c.1 * 3 + 3 / 2 ≤ tw - 2
    ∧ 1 ≤ c.2 * 3 + 3 / 2 ∧ c.2 * 3 + 3 / 2 ≤ th - 2 := by
  unfold coarseCellOk at hok
  omega

theorem expandCell_center_mem (gridH gridW th tw : Int) (c : Cell)
    (hok : coarseCellOk gridH gridW c) (hth : gridH * 3 ≤ th) (htw : gridW * 3 ≤ tw) :
    (c.1 * 3 + 3 / 2, c.2 * 3 + 3 / 2) ∈ expandCell 3 th tw c := by
  unfold coarseCellOk at hok
  unfold expandCell
  have hoff : offsetRange ((3 : Int) / 2) = [-1, 0, 1] := by decide
  rw [hoff]
  rw [List.mem_flatMap]
  refine ⟨0, by simp, ?_⟩
  rw [List.mem_filterMap]
  refine ⟨0, by simp, ?_⟩
  rw [if_pos (by refine ⟨by omega, by omega, by omega, by omega⟩)]
  have h1 : c.1 * 3 + 3 / 2 + 0 = c.1 * 3 + 3 / 2 := by omega
  have h2 : c.2 * 3 + 3 / 2 + 0 = c.2 * 3 + 3 / 2 := by omega
  rw [h1, h2]

theorem chooseExit_mem (rng : Nat → Nat) (ctr : Nat) (entranceCoarse : Cell)
    (exitCandidates : List Cell) :
    chooseExit rng ctr entranceCoarse exitCandidates = entranceCoarse
    ∨ chooseExit rng ctr entranceCoarse exitCandidates ∈ exitCandidates := by
  unfold chooseExit
  cases hbe : bestExitFold entranceCoarse exitCandidates with
  | some c => exact Or.inr (bestExitFold_mem entranceCoarse exitCandidates c hbe)
  | none =>
    cases exitCandidates with
    | nil => exact Or.inl rfl
    | cons c cs => exact Or.inr (pickFrom_mem _ _ _ _ (by simp))

theorem mazeAssemble_props (rng : Nat → Nat) (th tw gridH gridW : Int)
    (carved : List Cell) (ctr : Nat)
    (hth : gridH * 3 ≤ th) (htw : gridW * 3 ≤ tw)
    (hne : carved ≠ []) (hok : ∀ c ∈ carved, coarseCellOk gridH gridW c) :
    (mazeAssemble rng th tw 3 gridH gridW carved ctr).path ≠ []
    ∧ (∀ e, (mazeAssemble rng th tw 3 gridH gridW carved ctr).entrance = some e →
        1 ≤ e.1 ∧ e.1 ≤ tw - 2 ∧ 1 ≤ e.2 ∧ e.2 ≤ th - 2)
    ∧ (∀ e, (mazeAssemble rng th tw 3 gridH gridW carved ctr).exitCoord = some e →
        1 ≤ e.1 ∧ e.1 ≤ tw - 2 ∧ 1 ≤ e.2 ∧ e.2 ≤ th - 2) := by
  obtain ⟨c0, hc0⟩ : ∃ c, c ∈ carved := by
    cases carved with
    | nil => exact absurd rfl hne
    | cons a l => exact ⟨a, by simp⟩
  have hpathne : carved.flatMap (expandCell 3 th tw) ≠ [] := by
    intro hcon
    have hm : (c0.1 * 3 + 3 / 2, c0.2 * 3 + 3 / 2) ∈ carved.flatMap (expandCell 3 th tw) :=
      List.mem_flatMap.mpr ⟨c0, hc0,
        expandCell_center_mem gridH gridW th tw c0 (hok c0 hc0) hth htw⟩
    rw [hcon] at hm
    simp at hm
  have hboundmem : ∀ b ∈ sortLex (carved.filter
      (fun c => decide (c.1 = 1 ∨ c.1 = gridW - 2 ∨ c.2 = 1 ∨ c.2 = gridH - 2))),
      b ∈ carved := by
    intro b hb
    rw [mem_sortLex] at hb
    exact (List.mem_filter.mp hb).1
  simp only [mazeAssemble]
  split
  · next hlen =>
    refine ⟨hpathne, ?_, ?_⟩ <;> intro e he <;> simp at he
  · next hlen =>
    have hbne : sortLex (carved.filter
        (fun c => decide (c.1 = 1 ∨ c.1 = gridW - 2 ∨ c.2 = 1 ∨ c.2 = gridH - 2))) ≠ [] := by
      intro hcon
      rw [hcon] at hlen
      simp at hlen
    have hentm : pickFrom rng ctr (sortLex (carved.filter
        (fun c => decide (c.1 = 1 ∨ c.1 = gridW - 2 ∨ c.2 = 1 ∨ c.2 = gridH - 2)))) (0, 0)
        ∈ carved :=
      hboundmem _ (pickFrom_mem _ _ _ _ hbne)
    have hexitm : chooseExit rng ctr
        (pickFrom rng ctr (sortLex (carved.filter
          (fun c => decide (c.1 = 1 ∨ c.1 = gridW - 2 ∨ c.2 = 1 ∨ c.2 = gridH - 2)))) (0, 0))
        ((sortLex (carved.filter
          (fun c => decide (c.1 = 1 ∨ c.1 = gridW - 2 ∨ c.2 = 1 ∨ c.2 = gridH - 2)))).filter
          (fun c => decide (c ≠ pickFrom rng ctr (sortLex (carved.filter
            (fun c => decide (c.1 = 1 ∨ c.1 = gridW - 2 ∨ c.2 = 1 ∨ c.2 = gridH - 2)))) (0, 0))))
        ∈ carved := by
      rcases chooseExit_mem rng ctr _ _ with heq | hmem
      · rw [heq]; exact hentm
      · exact hboundmem _ (List.mem_filter.mp hmem).1
    refine ⟨hpathne, ?_, ?_⟩
    · intro e he
      simp only [Option.some.injEq] at he
      subst he
      exact coarseCenter_bounds gridH gridW th tw _ (hok _ hentm) hth htw
    · intro e he
      simp only [Option.some.injEq] at he
      subst he
      exact coarseCenter_bounds gridH gridW th tw _ (hok _ hexitm) hth htw

/-- C6 amended: for corridor width 3, generation succeeds exactly when each
target dimension `d` has `d // 3` odd and at least 3 (so 9-11, 15-17, ...;
12-14 fail although they are at least 9, because the derived coarse grid is
rounded up to the next odd size and no longer fits).  On success the path
set is non-empty and the returned entrance/exit coordinates, when non-null,
lie strictly inside the rectangle (never on row/column 0 or `dim - 1`);
when the computed grid does not fit (including every target unable to host
the minimum 3x3 coarse grid) the result is empty sets with null
coordinates. -/
theorem C6_maze_generation (rng : Nat → Nat) (th tw : Int) :
    (mazeGenFails th tw 3 → generate_wide_maze rng th tw 3 = ⟨[], [], none, none⟩)
    ∧ (th / 3 % 2 = 1 → 3 ≤ th / 3 → tw / 3 % 2 = 1 → 3 ≤ tw / 3 →
        (generate_wide_maze rng th tw 3).path ≠ []
        ∧ (∀ e, (generate_wide_maze rng th tw 3).entrance = some e →
            1 ≤ e.1 ∧ e.1 ≤ tw - 2 ∧ 1 ≤ e.2 ∧ e.2 ≤ th - 2)
        ∧ (∀ e, (generate_wide_maze rng th tw 3).exitCoord = some e →
            1 ≤ e.1 ∧ e.1 ≤ tw - 2 ∧ 1 ≤ e.2 ∧ e.2 ≤ th - 2)) := by
  have hnc : normalizeCorridor 3 = 3 := by decide
  constructor
  · intro h
    unfold generate_wide_maze
    rw [if_pos h]
  · intro h1 h2 h3 h4
    have hgH : coarseDim th 3 = th / 3 := by unfold coarseDim; omega
    have hgW : coarseDim tw 3 = tw / 3 := by unfold coarseDim; omega
    have hfail : ¬ mazeGenFails th tw 3 := by
      unfold mazeGenFails
      rw [hnc, hgH, hgW]
      omega
    have hcarve := mazeDfsRun_carved rng (th / 3) (tw / 3) h1 h3 h2 h4
    unfold generate_wide_maze
    rw [if_neg hfail, hnc]
    simp only [mazeCarveStage]
    rw [hgH, hgW]
    rw [if_neg hcarve.1]
    exact mazeAssemble_props rng th tw (th / 3) (tw / 3) _ _
      (by omega) (by omega) hcarve.1 hcarve.2

/-- C6 witness. -/
theorem C6_maze_generation_witness :
    generate_wide_maze (fun _ => 0) 2 9 3 = ⟨[], [], none, none⟩
    ∧ (generate_wide_maze (fun _ => 0) 9 9 3).path ≠ [] :=
  ⟨(C6_maze_generation (fun _ => 0) 2 9).1 (by decide),
   ((C6_maze_generation (fun _ => 0) 9 9).2 (by decide) (by decide) (by decide)
      (by decide)).1⟩

/-- C6 counterexample: the 12x12 target is at least 9x9 and can host the
minimum 3x3 coarse grid at corridor width 3 (9 <= 12), yet generation
fails deterministically — the derived coarse grid is 5x5, 5 * 3 = 15 > 12 —
returning an empty path set and null coordinates, contradicting the claim's
"non-empty path set for every target at least 9x9". -/
theorem C6_claim_fails_at_12x12 :
    generate_wide_maze (fun _ => 0) 12 12 3 = ⟨[], [], none, none⟩
    ∧ (3 : Int) * 3 ≤ 12 ∧ (9 : Int) ≤ 12 := by
  refine ⟨by decide, by decide, by decide⟩

end Snake
